import Mathlib

/-!
# Verification of the teffy Trace Event Format codec

A shallow embedding, in Lean 4, of the core of the `omaskery/teffy` Go
repository: the event decoder (`pkg/io/parse.go`), the event encoder and
streaming writer (`pkg/io/writer.go`), and the event model
(`pkg/events/events.go`).

Modelling conventions:
* JSON documents are the inductive `Json` below.  JSON numbers are modelled
  as integers (`Int`): every numeric value exercised by this development is
  integral, and Go's `float64` plays no other role here.
* Go's `encoding/json` struct unmarshalling is modelled field by field:
  an absent or `null` field yields the Go zero value (`""`, `0`, `nil`),
  a present field of the wrong JSON type is an unmarshalling type error.
  JSON objects are association lists; duplicate keys are not used anywhere
  in this development, and lookups take the first match.
* Go errors are modelled by the inductive `GoErr`; the `fmt.Errorf` message
  wrapping of the source is not modelled, only the underlying error kind.
* `interface{}` values on the encoder side are modelled by `GoVal`, which
  distinguishes the untyped nil interface (`vnil`) from an interface holding
  a typed nil pointer (`vIntPtr none`) — the distinction `mergeDicts`'s
  `v != nil` test observes.
* Go strings are Lean `String`s; `strings.Split(s, ",")` and
  `strings.Join(l, ",")` are modelled at the character-list level by
  `goSplitComma` / `goJoinComma`.
-/

namespace Teffy

/-- A JSON value.  Numbers are modelled as integers (see module docstring). -/
inductive Json where
  | null
  | bool (b : Bool)
  | num (n : Int)
  | str (s : String)
  | arr (elems : List Json)
  | obj (fields : List (String × Json))

/-- The error kinds surfaced by the codec (`pkg/io/parse.go` sentinel errors
plus the distinct `fmt.Errorf` failure shapes of `parse.go`/`writer.go`). -/
inductive GoErr where
  /-- `ErrInvalidDisplayTimeUnit` -/
  | invalidDisplayTimeUnit
  /-- `ErrInvalidDataType` ("data found in file does not match expected type") -/
  | invalidDataType
  /-- `ErrSyntaxError` ("file format contained a syntax error") -/
  | syntaxError
  /-- `parseJsonEvent`'s default case: "unknown phase encountered: '%v'" -/
  | unknownPhase (ph : String)
  /-- `require{Str,Int}Entry`: "... '%s' expected but was not found" -/
  | missingEntry (key : String)
  /-- an `encoding/json` unmarshalling type error -/
  | unmarshalTypeError
deriving DecidableEq, Repr

/-- First-match lookup in an association list keyed by strings. -/
def alookup {α : Type} : List (String × α) → String → Option α
  | [], _ => none
  | (k', v) :: rest, k => if k' = k then some v else alookup rest k

/-! ## Event model (`pkg/events/events.go`) -/

/-- `events.Phase` constants. -/
def PhaseBeginDuration : String := "B"
def PhaseEndDuration : String := "E"
def PhaseComplete : String := "X"
def PhaseInstant : String := "I"
def PhaseCounter : String := "C"
def PhaseAsyncBegin : String := "b"
def PhaseAsyncEnd : String := "e"
def PhaseAsyncInstant : String := "n"
def PhaseFlowStart : String := "s"
def PhaseFlowInstant : String := "t"
def PhaseFlowFinish : String := "f"
def PhaseObjectCreated : String := "N"
def PhaseObjectSnapshot : String := "O"
def PhaseObjectDeleted : String := "D"
def PhaseMetadata : String := "M"
def PhaseGlobalMemoryDump : String := "V"
def PhaseProcessMemoryDump : String := "v"
def PhaseMark : String := "R"
def PhaseClockSync : String := "c"
def PhaseContextEnter : String := "("
def PhaseContextExit : String := ")"
def PhaseLinkIds : String := "="

/-- `events.InstantScope` constants. -/
def InstantScopeThread : String := "t"
def InstantScopeProcess : String := "p"
def InstantScopeGlobal : String := "g"

/-- `events.StackFrame`. -/
structure StackFrame where
  category : String
  name : String
  parent : String
deriving DecidableEq, Repr

/-- `events.StackTrace`. -/
structure StackTrace where
  trace : List StackFrame
deriving DecidableEq, Repr

/-- `events.EventCore`. -/
structure EventCore where
  name : String
  categories : List String
  timestamp : Int
  threadTimestamp : Option Int
  processID : Option Int
  threadID : Option Int
deriving DecidableEq, Repr

/-- The decoded form of a Go `map[string]interface{}` argument bag:
the JSON values keyed by name (a JSON `null` arrives as the nil interface). -/
abbrev Args := List (String × Json)

/-- `events.BindingPoint`. -/
inductive BindingPoint where
  | enclosing
  | next
deriving DecidableEq, Repr

/-- The closed union of the `events` package's event variants.  Each
constructor carries its `EventCore` plus the extra fields of the Go struct
of the same name. -/
inductive Event where
  | beginDuration (core : EventCore) (args : Args) (stackTrace : Option StackTrace)
  | endDuration (core : EventCore) (args : Args) (stackTrace : Option StackTrace)
  | complete (core : EventCore) (args : Args) (stackTrace : Option StackTrace)
      (endStackTrace : Option StackTrace) (duration : Int) (threadDuration : Option Int)
  | instant (core : EventCore) (scope : String) (stackTrace : Option StackTrace)
  | counter (core : EventCore) (values : List (String × Int))
  | asyncBegin (core : EventCore) (args : Args) (id : String) (scope : String)
  | asyncInstant (core : EventCore) (args : Args) (id : String) (scope : String)
  | asyncEnd (core : EventCore) (args : Args) (id : String) (scope : String)
  | flowStart (core : EventCore) (args : Args)
  | flowInstant (core : EventCore) (args : Args)
  | flowFinish (core : EventCore) (args : Args) (bindingPoint : BindingPoint)
  | objectCreated (core : EventCore) (id : String)
  | objectSnapshot (core : EventCore) (args : Args) (id : String)
  | objectDeleted (core : EventCore) (id : String)
  | metadataProcessName (core : EventCore) (processName : String)
  | metadataThreadName (core : EventCore) (threadName : String)
  | metadataProcessLabels (core : EventCore) (labels : String)
  | metadataProcessSortIndex (core : EventCore) (sortIndex : Int)
  | metadataThreadSortIndex (core : EventCore) (sortIndex : Int)
  | metadataMisc (core : EventCore) (args : Args)
  | globalMemoryDump (core : EventCore) (args : Args)
  | processMemoryDump (core : EventCore) (args : Args)
  | mark (core : EventCore) (args : Args)
  | clockSync (core : EventCore) (args : Args) (syncId : String) (issueTs : Option Int)
  | contextEnter (core : EventCore) (args : Args) (id : String)
  | contextExit (core : EventCore) (args : Args) (id : String)
  | linkIds (core : EventCore) (args : Args) (id : String) (linkedId : String)

/-- The `Phase()` method of each event variant. -/
def Event.phase : Event → String
  | .beginDuration .. => PhaseBeginDuration
  | .endDuration .. => PhaseEndDuration
  | .complete .. => PhaseComplete
  | .instant .. => PhaseInstant
  | .counter .. => PhaseCounter
  | .asyncBegin .. => PhaseAsyncBegin
  | .asyncInstant .. => PhaseAsyncInstant
  | .asyncEnd .. => PhaseAsyncEnd
  | .flowStart .. => PhaseFlowStart
  | .flowInstant .. => PhaseFlowInstant
  | .flowFinish .. => PhaseFlowFinish
  | .objectCreated .. => PhaseObjectCreated
  | .objectSnapshot .. => PhaseObjectSnapshot
  | .objectDeleted .. => PhaseObjectDeleted
  | .metadataProcessName .. => PhaseMetadata
  | .metadataThreadName .. => PhaseMetadata
  | .metadataProcessLabels .. => PhaseMetadata
  | .metadataProcessSortIndex .. => PhaseMetadata
  | .metadataThreadSortIndex .. => PhaseMetadata
  | .metadataMisc .. => PhaseMetadata
  | .globalMemoryDump .. => PhaseGlobalMemoryDump
  | .processMemoryDump .. => PhaseProcessMemoryDump
  | .mark .. => PhaseMark
  | .clockSync .. => PhaseClockSync
  | .contextEnter .. => PhaseContextEnter
  | .contextExit .. => PhaseContextExit
  | .linkIds .. => PhaseLinkIds

/-! ## Go string splitting and joining

`strings.Split(s, ",")` and `strings.Join(l, ",")`, modelled on the
character lists underlying the strings. -/

/-- `strings.Join(l, ",")`. -/
def goJoinComma (l : List String) : String :=
  String.mk (List.intercalate [','] (l.map String.data))

/-- `strings.Split(s, ",")`. -/
def goSplitComma (s : String) : List String :=
  (s.data.splitOn ',').map String.mk

/-! ## Field extraction (`encoding/json` struct unmarshalling)

One definition per Go field type appearing in the wire structs of
`pkg/io/parse.go` (`tef.go` types).  An absent or `null` field produces the
Go zero value; a present field of the wrong JSON type is an error. -/

/-- Unmarshal a JSON document into a Go struct: only an object (or `null`,
which leaves the struct zeroed) is accepted. -/
def asObj : Json → Except GoErr (List (String × Json))
  | .obj o => .ok o
  | .null => .ok []
  | _ => .error .unmarshalTypeError

/-- A `string` struct field. -/
def fieldStr (o : List (String × Json)) (k : String) : Except GoErr String :=
  match alookup o k with
  | none => .ok ""
  | some .null => .ok ""
  | some (.str s) => .ok s
  | some _ => .error .unmarshalTypeError

/-- An `int64` struct field. -/
def fieldInt (o : List (String × Json)) (k : String) : Except GoErr Int :=
  match alookup o k with
  | none => .ok 0
  | some .null => .ok 0
  | some (.num n) => .ok n
  | some _ => .error .unmarshalTypeError

/-- A `*int64` struct field. -/
def fieldOptInt (o : List (String × Json)) (k : String) : Except GoErr (Option Int) :=
  match alookup o k with
  | none => .ok none
  | some .null => .ok none
  | some (.num n) => .ok (some n)
  | some _ => .error .unmarshalTypeError

/-- One element of a `[]string` struct field. -/
def elemStr : Json → Except GoErr String
  | .null => .ok ""
  | .str s => .ok s
  | _ => .error .unmarshalTypeError

/-- A `[]string` struct field. -/
def fieldStrList (o : List (String × Json)) (k : String) :
    Except GoErr (List String) :=
  match alookup o k with
  | none => .ok []
  | some .null => .ok []
  | some (.arr es) => es.mapM elemStr
  | some _ => .error .unmarshalTypeError

/-- A `map[string]interface{}` struct field (the `args` bag). -/
def fieldArgs (o : List (String × Json)) (k : String) : Except GoErr Args :=
  match alookup o k with
  | none => .ok []
  | some .null => .ok []
  | some (.obj fields) => .ok fields
  | some _ => .error .unmarshalTypeError

/-- The `Id2 *jsonId2` struct field (`id2` with `local`/`global` strings);
its value is never copied into an event, but unmarshalling still
type-checks it. -/
def fieldId2 (o : List (String × Json)) : Except GoErr (String × String) :=
  match alookup o "id2" with
  | none => .ok ("", "")
  | some .null => .ok ("", "")
  | some (.obj o2) => do
      let l ← fieldStr o2 "local"
      let g ← fieldStr o2 "global"
      .ok (l, g)
  | some _ => .error .unmarshalTypeError

/-! ## Decoder (`pkg/io/parse.go`) -/

/-- The unmarshalled `jsonEventCore` wire struct. -/
structure JsonEventCore where
  phase : String
  name : String
  categories : String
  timestamp : Int
  threadTimestamp : Option Int
  processID : Option Int
  threadID : Option Int
deriving DecidableEq, Repr

/-- Unmarshalling of the `jsonEventCore` struct (fields `ph`, `name`, `cat`,
`ts`, `tts`, `pid`, `tid`). -/
def unmarshalEventCore (o : List (String × Json)) : Except GoErr JsonEventCore := do
  let ph ← fieldStr o "ph"
  let name ← fieldStr o "name"
  let cat ← fieldStr o "cat"
  let ts ← fieldInt o "ts"
  let tts ← fieldOptInt o "tts"
  let pid ← fieldOptInt o "pid"
  let tid ← fieldOptInt o "tid"
  .ok ⟨ph, name, cat, ts, tts, pid, tid⟩

/-- Unmarshalling of the `jsonStackInfo` struct (fields `stack`, `sf`). -/
def unmarshalStackInfo (o : List (String × Json)) :
    Except GoErr (List String × String) := do
  let stack ← fieldStrList o "stack"
  let sf ← fieldStr o "sf"
  .ok (stack, sf)

/-- The category split of `decodeEventCore`: `categories` starts as an empty
slice and is `strings.Split` of the wire string only when that string is
non-empty. -/
def decodeCategories (cat : String) : List String :=
  if cat = "" then [] else goSplitComma cat

/-- `decodeEventCore`. -/
def decodeEventCore (jsonCore : JsonEventCore) : EventCore :=
  { name := jsonCore.name
    categories := decodeCategories jsonCore.categories
    timestamp := jsonCore.timestamp
    threadTimestamp := jsonCore.threadTimestamp
    processID := jsonCore.processID
    threadID := jsonCore.threadID }

/-- `decodeRawStackTrace`. -/
def decodeRawStackTrace (trace : List String) : Option StackTrace :=
  if trace.length < 1 then none
  else some ⟨trace.map fun entry => { category := "", name := entry, parent := "" }⟩

/-- `getIntEntry`: an argument-bag value asserted to be a JSON number
(`v.(float64)`); a present value of any other shape — including a JSON
`null`, which Go stores as a nil interface — is `ErrInvalidDataType`. -/
def getIntEntry (args : Args) (key : String) : Except GoErr (Option Int) :=
  match alookup args key with
  | none => .ok none
  | some (.num n) => .ok (some n)
  | some _ => .error .invalidDataType

/-- `requireIntEntry`. -/
def requireIntEntry (args : Args) (key : String) : Except GoErr Int := do
  match ← getIntEntry args key with
  | none => .error (.missingEntry key)
  | some v => .ok v

/-- `getStrEntry`. -/
def getStrEntry (args : Args) (key : String) : Except GoErr (Option String) :=
  match alookup args key with
  | none => .ok none
  | some (.str s) => .ok (some s)
  | some _ => .error .invalidDataType

/-- `requireStrEntry`. -/
def requireStrEntry (args : Args) (key : String) : Except GoErr String := do
  match ← getStrEntry args key with
  | none => .error (.missingEntry key)
  | some v => .ok v

/-- `decodeEventPhase`: unmarshal only the `jsonEventPhase` struct. -/
def decodeEventPhase (j : Json) : Except GoErr String := do
  let o ← asObj j
  fieldStr o "ph"

/-- The `numberOrString` wire helper of the counter decoder.  Its custom
`UnmarshalJSON` first tries to unmarshal a string (a no-op success on
`null`), and otherwise a number. -/
structure NumberOrString where
  number : Int
  str : String
deriving DecidableEq, Repr

/-- `numberOrString.UnmarshalJSON`. -/
def unmarshalNumberOrString : Json → Except GoErr NumberOrString
  | .str s => .ok ⟨0, s⟩
  | .null => .ok ⟨0, ""⟩
  | .num n => .ok ⟨n, ""⟩
  | _ => .error .unmarshalTypeError

/-- `strconv.ParseFloat`, on the integral numerals this development uses. -/
def goParseFloat (s : String) : Except GoErr Int :=
  match s.toInt? with
  | some n => .ok n
  | none => .error .invalidDataType

/-- The per-entry conversion in `jsonCounterEvent.UnmarshalJSON`:
the numeric value, unless a non-empty string form was present, which is
parsed as a float instead. -/
def counterValue (nos : NumberOrString) : Except GoErr Int :=
  if nos.str ≠ "" then goParseFloat nos.str else .ok nos.number

/-- Unmarshalling of the `args`-keyed `Values` map of `jsonCounterEvent`
(via `tempJsonCounterEvent` and `numberOrString`). -/
def unmarshalCounterValues (o : List (String × Json)) :
    Except GoErr (List (String × Int)) :=
  match alookup o "args" with
  | none => .ok []
  | some .null => .ok []
  | some (.obj fields) =>
      fields.mapM fun kv => do
        let nos ← unmarshalNumberOrString kv.2
        let value ← counterValue nos
        .ok (kv.1, value)
  | some _ => .error .unmarshalTypeError

/-! ### The per-phase branches of `parseJsonEvent`

The Go source inlines one block per `case` of its phase switch; each block
unmarshals the wire struct of that phase and builds the event variant.  The
blocks are factored into one definition each here (the legacy async phases
`S`/`T`/`p`/`F` run the same block as their modern counterparts up to the
error message, which is not modelled). -/

/-- The `events.PhaseBeginDuration` case: unmarshal `jsonDurationEvent`. -/
def parseBeginDurationEvent (o : List (String × Json)) : Except GoErr Event := do
  let jc ← unmarshalEventCore o
  let args ← fieldArgs o "args"
  let (stack, _sf) ← unmarshalStackInfo o
  .ok (.beginDuration (decodeEventCore jc) args (decodeRawStackTrace stack))

/-- The `events.PhaseEndDuration` case: unmarshal `jsonDurationEvent`. -/
def parseEndDurationEvent (o : List (String × Json)) : Except GoErr Event := do
  let jc ← unmarshalEventCore o
  let args ← fieldArgs o "args"
  let (stack, _sf) ← unmarshalStackInfo o
  .ok (.endDuration (decodeEventCore jc) args (decodeRawStackTrace stack))

/-- The `events.PhaseComplete` case: unmarshal `jsonCompleteEvent`.  The
struct's `dur`/`esf` fields are unmarshalled but, like `sf`, never copied
into the event, whose `Duration`/`ThreadDuration` stay zero. -/
def parseCompleteEvent (o : List (String × Json)) : Except GoErr Event := do
  let jc ← unmarshalEventCore o
  let args ← fieldArgs o "args"
  let (stack, _sf) ← unmarshalStackInfo o
  let _dur ← fieldInt o "dur"
  let estack ← fieldStrList o "estack"
  let _esf ← fieldStr o "esf"
  .ok (.complete (decodeEventCore jc) args (decodeRawStackTrace stack)
    (decodeRawStackTrace estack) 0 none)

/-- The `events.PhaseInstant` case: unmarshal `jsonInstantEvent`; an empty
scope string becomes `events.InstantScopeGlobal`. -/
def parseInstantEvent (o : List (String × Json)) : Except GoErr Event := do
  let jc ← unmarshalEventCore o
  let (stack, _sf) ← unmarshalStackInfo o
  let s ← fieldStr o "s"
  let scope := if s = "" then InstantScopeGlobal else s
  .ok (.instant (decodeEventCore jc) scope (decodeRawStackTrace stack))

/-- The `events.PhaseCounter` case: unmarshal `jsonCounterEvent`. -/
def parseCounterEvent (o : List (String × Json)) : Except GoErr Event := do
  let jc ← unmarshalEventCore o
  let values ← unmarshalCounterValues o
  .ok (.counter (decodeEventCore jc) values)

/-- Unmarshalling shared by the async cases (`jsonAsyncEvent`, which embeds
`jsonScopedId`; the id fields are type-checked but never copied into the
event). -/
def parseAsyncFields (o : List (String × Json)) : Except GoErr (EventCore × Args) := do
  let jc ← unmarshalEventCore o
  let args ← fieldArgs o "args"
  let _id ← fieldStr o "id"
  let _id2 ← fieldId2 o
  let _scope ← fieldStr o "scope"
  .ok (decodeEventCore jc, args)

/-- The `events.PhaseAsyncBegin` (and legacy `"S"`) case. -/
def parseAsyncBeginEvent (o : List (String × Json)) : Except GoErr Event := do
  let (core, args) ← parseAsyncFields o
  .ok (.asyncBegin core args "" "")

/-- The `events.PhaseAsyncInstant` (and legacy `"T"`/`"p"`) case. -/
def parseAsyncInstantEvent (o : List (String × Json)) : Except GoErr Event := do
  let (core, args) ← parseAsyncFields o
  .ok (.asyncInstant core args "" "")

/-- The `events.PhaseAsyncEnd` (and legacy `"F"`) case. -/
def parseAsyncEndEvent (o : List (String × Json)) : Except GoErr Event := do
  let (core, args) ← parseAsyncFields o
  .ok (.asyncEnd core args "" "")

/-- The `events.PhaseObjectCreated` case: unmarshal `jsonObjectEvent`
(the same shape as `jsonAsyncEvent`); only the core is copied. -/
def parseObjectCreatedEvent (o : List (String × Json)) : Except GoErr Event := do
  let (core, _args) ← parseAsyncFields o
  .ok (.objectCreated core "")

/-- The `events.PhaseObjectSnapshot` case. -/
def parseObjectSnapshotEvent (o : List (String × Json)) : Except GoErr Event := do
  let (core, args) ← parseAsyncFields o
  .ok (.objectSnapshot core args "")

/-- The `events.PhaseObjectDeleted` case. -/
def parseObjectDeletedEvent (o : List (String × Json)) : Except GoErr Event := do
  let (core, _args) ← parseAsyncFields o
  .ok (.objectDeleted core "")

/-- The `events.PhaseMetadata` case: unmarshal `jsonMetadataEvent`, then
dispatch on the event name over the well-known `events.MetadataKind`s. -/
def parseMetadataEvent (o : List (String × Json)) : Except GoErr Event := do
  let jc ← unmarshalEventCore o
  let args ← fieldArgs o "args"
  match jc.name with
  | "process_name" => do
      let name ← requireStrEntry args "name"
      .ok (.metadataProcessName (decodeEventCore jc) name)
  | "process_labels" => do
      let labels ← requireStrEntry args "labels"
      .ok (.metadataProcessLabels (decodeEventCore jc) labels)
  | "process_sort_index" => do
      let sortIndex ← requireIntEntry args "sort_index"
      .ok (.metadataProcessSortIndex (decodeEventCore jc) sortIndex)
  | "thread_name" => do
      let name ← requireStrEntry args "name"
      .ok (.metadataThreadName (decodeEventCore jc) name)
  | "thread_sort_index" => do
      let sortIndex ← requireIntEntry args "sort_index"
      .ok (.metadataThreadSortIndex (decodeEventCore jc) sortIndex)
  | _ => .ok (.metadataMisc (decodeEventCore jc) args)

/-- Unmarshalling of a bare `jsonEventWithArgs` (memory dumps, mark,
clock sync wire structs). -/
def parseArgsFields (o : List (String × Json)) : Except GoErr (EventCore × Args) := do
  let jc ← unmarshalEventCore o
  let args ← fieldArgs o "args"
  .ok (decodeEventCore jc, args)

/-- The `events.PhaseGlobalMemoryDump` case. -/
def parseGlobalMemoryDumpEvent (o : List (String × Json)) : Except GoErr Event := do
  let (core, args) ← parseArgsFields o
  .ok (.globalMemoryDump core args)

/-- The `events.PhaseProcessMemoryDump` case. -/
def parseProcessMemoryDumpEvent (o : List (String × Json)) : Except GoErr Event := do
  let (core, args) ← parseArgsFields o
  .ok (.processMemoryDump core args)

/-- The `events.PhaseMark` case. -/
def parseMarkEvent (o : List (String × Json)) : Except GoErr Event := do
  let (core, args) ← parseArgsFields o
  .ok (.mark core args)

/-- The `events.PhaseClockSync` case: `issue_ts` (optional number) and
`sync_id` (required string) are extracted from the argument bag. -/
def parseClockSyncEvent (o : List (String × Json)) : Except GoErr Event := do
  let (core, args) ← parseArgsFields o
  let issueTs ← getIntEntry args "issue_ts"
  let syncId ← requireStrEntry args "sync_id"
  .ok (.clockSync core args syncId issueTs)

/-- Unmarshalling shared by the context cases (`jsonContextEvent`, which
embeds `jsonId`; the id fields are type-checked but never copied). -/
def parseContextFields (o : List (String × Json)) : Except GoErr (EventCore × Args) := do
  let jc ← unmarshalEventCore o
  let args ← fieldArgs o "args"
  let _id ← fieldStr o "id"
  let _id2 ← fieldId2 o
  .ok (decodeEventCore jc, args)

/-- The `events.PhaseContextEnter` case. -/
def parseContextEnterEvent (o : List (String × Json)) : Except GoErr Event := do
  let (core, args) ← parseContextFields o
  .ok (.contextEnter core args "")

/-- The `events.PhaseContextExit` case. -/
def parseContextExitEvent (o : List (String × Json)) : Except GoErr Event := do
  let (core, args) ← parseContextFields o
  .ok (.contextExit core args "")

/-- The `events.PhaseLinkIds` case: unmarshal `jsonLinkedIdEvent`;
`linked_id` (required string) is extracted from the argument bag. -/
def parseLinkIdsEvent (o : List (String × Json)) : Except GoErr Event := do
  let (core, args) ← parseContextFields o
  let linkedId ← requireStrEntry args "linked_id"
  .ok (.linkIds core args "" linkedId)

/-- `parseJsonEvent`: decode the phase discriminator, then dispatch.  The
string literals are the values of the `events.Phase` constants plus the
deprecated async codes `"S"`, `"T"`, `"p"`, `"F"`; any other phase —
including the flow phases `"s"`/`"t"`/`"f"` and the legacy instant `"i"`,
which have no case in the source switch — falls to the unknown-phase
error. -/
def parseJsonEvent (rawEvent : Json) : Except GoErr Event := do
  let phase ← decodeEventPhase rawEvent
  let o ← asObj rawEvent
  match phase with
  | "B" => parseBeginDurationEvent o
  | "E" => parseEndDurationEvent o
  | "X" => parseCompleteEvent o
  | "I" => parseInstantEvent o
  | "C" => parseCounterEvent o
  | "S" => parseAsyncBeginEvent o    -- deprecated async start
  | "T" => parseAsyncInstantEvent o  -- deprecated async step into
  | "p" => parseAsyncInstantEvent o  -- deprecated async step past
  | "F" => parseAsyncEndEvent o      -- deprecated async finish
  | "b" => parseAsyncBeginEvent o
  | "n" => parseAsyncInstantEvent o
  | "e" => parseAsyncEndEvent o
  | "N" => parseObjectCreatedEvent o
  | "O" => parseObjectSnapshotEvent o
  | "D" => parseObjectDeletedEvent o
  | "M" => parseMetadataEvent o
  | "V" => parseGlobalMemoryDumpEvent o
  | "v" => parseProcessMemoryDumpEvent o
  | "R" => parseMarkEvent o
  | "c" => parseClockSyncEvent o
  | "(" => parseContextEnterEvent o
  | ")" => parseContextExitEvent o
  | "=" => parseLinkIdsEvent o
  | _ => .error (.unknownPhase phase)

/-! ## Container decode, array form (`ParseJsonArray`)

`ParseJsonArray` drives a `json.Decoder` token by token: it demands a `[`
as the first token, then loops `decoder.More()` / `decoder.Decode(&raw)`,
breaking on `io.EOF`.  The byte-level decoder is not re-implemented here;
its observable behaviour on array input is taken as the stream model below:
the decoder yields the complete element values that precede either the
closing `]` or the end of input, and `More` (or an `io.EOF` from `Decode`,
which the loop treats as a clean break) ends the loop at end of input —
whether the array was properly closed, truncated after a value, or
truncated after a dangling comma. -/

/-- `io.DisplayTimeUnit` constants. -/
def DisplayTimeMs : String := "ms"
def DisplayTimeNs : String := "ns"

/-- `io.TefData`: the in-memory trace container. -/
structure TefData where
  traceEvents : List Event
  displayTimeUnit : String
  systemTraceEvents : String
  powerTraceAsString : String
  stackFrames : List (String × StackFrame)
  controllerTraceDataKey : String
  metadata : List (String × Json)

/-- How the wire array ends: with its closing bracket, truncated right
after a complete element, or truncated after a dangling comma. -/
inductive ArrayTermination where
  | closed
  | truncatedAfterValue
  | truncatedAfterComma
deriving DecidableEq, Repr

/-- The token-stream view of an array-form input (see the section
docstring): whether the first token is `[`, the complete element values
the decoder yields, and how the array ends. -/
structure ArrayStream where
  startsWithBracket : Bool
  elems : List Json
  termination : ArrayTermination

/-- The `decoder.More()` loop body of `ParseJsonArray`: each raw element is
fed to `parseJsonEvent` and appended, and any event-level error aborts. -/
def parseArrayEvents : List Json → Except GoErr (List Event)
  | [] => .ok []
  | e :: rest => do
      let event ← parseJsonEvent e
      let events ← parseArrayEvents rest
      .ok (event :: events)

/-- `ParseJsonArray`. -/
def ParseJsonArray (s : ArrayStream) : Except GoErr TefData :=
  if s.startsWithBracket = false then .error .syntaxError
  else do
    let events ← parseArrayEvents s.elems
    .ok { traceEvents := events
          displayTimeUnit := DisplayTimeMs
          systemTraceEvents := ""
          powerTraceAsString := ""
          stackFrames := []
          controllerTraceDataKey := "traceEvents"
          metadata := [] }

/-! ## Encoder (`pkg/io/writer.go`)

`writeJsonEvent` builds one wire struct per variant and `json.Marshal`
serialises it.  Here the two steps are fused: each case produces directly
the field list of the marshalled JSON object, with Go's `omitempty`
semantics (a zero string, zero int, nil pointer, or empty slice/map is
omitted) applied where the wire struct declares it. -/

/-- A Go `interface{}` value on the encoder side.  `vnil` is the untyped
nil interface; `vIntPtr` is an interface holding a `*int64`, which is a
non-nil interface even when the pointer itself is nil. -/
inductive GoVal where
  | vnil
  | vjson (j : Json)
  | vIntPtr (p : Option Int)

/-- A decoded argument value as an `interface{}`: JSON `null` was stored
as the untyped nil interface. -/
def jsonToGoVal : Json → GoVal
  | .null => .vnil
  | j => .vjson j

/-- `json.Marshal` of an `interface{}` argument value: both the untyped
nil interface and a nil typed pointer serialise as JSON `null`. -/
def goValToJson : GoVal → Json
  | .vnil => .null
  | .vjson j => j
  | .vIntPtr none => .null
  | .vIntPtr (some n) => .num n

/-- The `v != nil` test of `mergeDicts`: true only for the untyped nil
interface. -/
def isNilVal : GoVal → Bool
  | .vnil => true
  | _ => false

/-- `mergeDicts`: copy the non-nil entries of `a`, then the non-nil
entries of `b` (which therefore override `a` on shared keys). -/
def mergeDicts (a b : List (String × GoVal)) : List (String × GoVal) :=
  (a.filter fun p => !isNilVal p.2 && (alookup (b.filter fun q => !isNilVal q.2) p.1).isNone)
    ++ b.filter fun q => !isNilVal q.2

/-- `writeStackInfo`: flatten an optional stack trace to its frame names
(an absent trace flattens to a nil slice). -/
def writeStackInfo : Option StackTrace → List String
  | none => []
  | some t => t.trace.map (·.name)

/-- An `omitempty` string field. -/
def omitemptyStr (k s : String) : List (String × Json) :=
  if s = "" then [] else [(k, .str s)]

/-- An `omitempty` `*int64` field. -/
def omitemptyOptInt (k : String) : Option Int → List (String × Json)
  | none => []
  | some n => [(k, .num n)]

/-- An `omitempty` `[]string` field. -/
def omitemptyStrList (k : String) : List String → List (String × Json)
  | [] => []
  | l => [(k, .arr (l.map Json.str))]

/-- An `omitempty` `map[string]interface{}` field holding decoded
argument values. -/
def omitemptyArgs (args : Args) : List (String × Json) :=
  if args.isEmpty then [] else [("args", .obj args)]

/-- An `omitempty` merged `interface{}` map field. -/
def omitemptyGoArgs (m : List (String × GoVal)) : List (String × Json) :=
  if m.isEmpty then [] else [("args", .obj (m.map fun p => (p.1, goValToJson p.2)))]

/-- `writeJsonEventCore`: the marshalled fields of `jsonEventCore`
(`ph`, then `name`, `cat` with `omitempty`, `ts`, and the three
`omitempty` pointer fields), with `Categories` re-joined by
`strings.Join(_, ",")`. -/
def writeJsonEventCoreJson (ph : String) (core : EventCore) : List (String × Json) :=
  [("ph", .str ph), ("name", .str core.name)]
    ++ omitemptyStr "cat" (goJoinComma core.categories)
    ++ [("ts", .num core.timestamp)]
    ++ omitemptyOptInt "tts" core.threadTimestamp
    ++ omitemptyOptInt "pid" core.processID
    ++ omitemptyOptInt "tid" core.threadID

/-- `writeJsonEventCoreWithName`: the core fields with the name overridden
(used by the well-known metadata variants). -/
def writeJsonEventCoreWithNameJson (ph : String) (core : EventCore) (name : String) :
    List (String × Json) :=
  writeJsonEventCoreJson ph { core with name := name }

/-- The `jsonScopedId` marshalled fields (`id` and `scope` with
`omitempty`; `id2` is a nil pointer the writer never sets, hence
omitted). -/
def scopedIdJson (id scope : String) : List (String × Json) :=
  omitemptyStr "id" id ++ omitemptyStr "scope" scope

/-- `writeJsonEvent` fused with `json.Marshal` of the wire struct it
builds: the field list of the serialised JSON object, one case per event
variant, mirroring the type switch of the source.  The flow variants have
no case in the source switch and fall to its "unknown phase" error. -/
def writeJsonEvent : Event → Except GoErr (List (String × Json))
  | .beginDuration core args st =>
      .ok (writeJsonEventCoreJson PhaseBeginDuration core ++ omitemptyArgs args
        ++ omitemptyStrList "stack" (writeStackInfo st))
  | .endDuration core args st =>
      .ok (writeJsonEventCoreJson PhaseEndDuration core ++ omitemptyArgs args
        ++ omitemptyStrList "stack" (writeStackInfo st))
  | .complete core args st est dur _tdur =>
      .ok (writeJsonEventCoreJson PhaseComplete core ++ omitemptyArgs args
        ++ omitemptyStrList "stack" (writeStackInfo st)
        ++ (if dur = 0 then [] else [("dur", .num dur)])
        ++ omitemptyStrList "estack" (writeStackInfo est))
  | .instant core scope st =>
      .ok (writeJsonEventCoreJson PhaseInstant core
        ++ omitemptyStrList "stack" (writeStackInfo st)
        ++ omitemptyStr "s" scope)
  | .counter core values =>
      .ok (writeJsonEventCoreJson PhaseCounter core
        ++ (match values with
            | [] => []
            | vs => [("args", .obj (vs.map fun p => (p.1, Json.num p.2)))]))
  | .asyncBegin core args id scope =>
      .ok (writeJsonEventCoreJson PhaseAsyncBegin core ++ omitemptyArgs args
        ++ scopedIdJson id scope)
  | .asyncInstant core args id scope =>
      .ok (writeJsonEventCoreJson PhaseAsyncInstant core ++ omitemptyArgs args
        ++ scopedIdJson id scope)
  | .asyncEnd core args id scope =>
      .ok (writeJsonEventCoreJson PhaseAsyncEnd core ++ omitemptyArgs args
        ++ scopedIdJson id scope)
  | .flowStart .. => .error (.unknownPhase PhaseFlowStart)
  | .flowInstant .. => .error (.unknownPhase PhaseFlowInstant)
  | .flowFinish .. => .error (.unknownPhase PhaseFlowFinish)
  | .objectCreated core id =>
      .ok (writeJsonEventCoreJson PhaseObjectCreated core ++ scopedIdJson id "")
  | .objectSnapshot core args id =>
      .ok (writeJsonEventCoreJson PhaseObjectSnapshot core ++ omitemptyArgs args
        ++ scopedIdJson id "")
  | .objectDeleted core id =>
      .ok (writeJsonEventCoreJson PhaseObjectDeleted core ++ scopedIdJson id "")
  | .metadataProcessName core processName =>
      .ok (writeJsonEventCoreWithNameJson PhaseMetadata core "process_name"
        ++ [("args", .obj [("name", .str processName)])])
  | .metadataProcessLabels core labels =>
      .ok (writeJsonEventCoreWithNameJson PhaseMetadata core "process_labels"
        ++ [("args", .obj [("labels", .str labels)])])
  | .metadataProcessSortIndex core sortIndex =>
      .ok (writeJsonEventCoreWithNameJson PhaseMetadata core "process_sort_index"
        ++ [("args", .obj [("sort_index", .num sortIndex)])])
  | .metadataThreadName core threadName =>
      .ok (writeJsonEventCoreWithNameJson PhaseMetadata core "thread_name"
        ++ [("args", .obj [("name", .str threadName)])])
  | .metadataThreadSortIndex core sortIndex =>
      .ok (writeJsonEventCoreWithNameJson PhaseMetadata core "thread_sort_index"
        ++ [("args", .obj [("sort_index", .num sortIndex)])])
  | .metadataMisc core args =>
      .ok (writeJsonEventCoreJson PhaseMetadata core ++ omitemptyArgs args)
  | .globalMemoryDump core args =>
      .ok (writeJsonEventCoreJson PhaseGlobalMemoryDump core ++ omitemptyArgs args)
  | .processMemoryDump core args =>
      .ok (writeJsonEventCoreJson PhaseProcessMemoryDump core ++ omitemptyArgs args)
  | .mark core args =>
      .ok (writeJsonEventCoreJson PhaseMark core ++ omitemptyArgs args)
  | .clockSync core args syncId issueTs =>
      .ok (writeJsonEventCoreJson PhaseClockSync core
        ++ omitemptyGoArgs (mergeDicts
            (args.map fun p => (p.1, jsonToGoVal p.2))
            [("sync_id", .vjson (.str syncId)), ("issue_ts", .vIntPtr issueTs)]))
  | .contextEnter core args id =>
      .ok (writeJsonEventCoreJson PhaseContextEnter core ++ omitemptyArgs args
        ++ omitemptyStr "id" id)
  | .contextExit core args id =>
      .ok (writeJsonEventCoreJson PhaseContextExit core ++ omitemptyArgs args
        ++ omitemptyStr "id" id)
  | .linkIds core args id linkedId =>
      .ok (writeJsonEventCoreJson PhaseLinkIds core
        ++ omitemptyGoArgs (mergeDicts
            (args.map fun p => (p.1, jsonToGoVal p.2))
            [("linked_id", .vjson (.str linkedId))])
        ++ omitemptyStr "id" id)

/-- `marshalJsonEvent`: `writeJsonEvent` followed by `json.Marshal`. -/
def marshalJsonEvent (event : Event) : Except GoErr Json := do
  let fields ← writeJsonEvent event
  .ok (.obj fields)

/-! ## Streaming writer (`streamingWriter` in `pkg/io/writer.go`)

The byte sink is modelled as the list of chunks written to it (each
`io.WriteString`/`Write` call is one chunk) plus a count of how many times
its `Close` was called. -/

/-- One write to the underlying sink. -/
inductive Chunk where
  | openBracket
  | comma
  | closeBracket
  | eventMsg (j : Json)

/-- The underlying `io.WriteCloser`. -/
structure Sink where
  out : List Chunk
  closeCount : Nat

/-- `streamingWriter`. -/
structure StreamingWriter where
  sink : Sink
  initialised : Bool
  finalised : Bool

/-- `NewStreamingWriter` over a fresh sink. -/
def NewStreamingWriter : StreamingWriter :=
  { sink := { out := [], closeCount := 0 }, initialised := false, finalised := false }

/-- Append one chunk to the underlying sink. -/
def swEmit (sw : StreamingWriter) (c : Chunk) : StreamingWriter :=
  { sw with sink := { sw.sink with out := sw.sink.out ++ [c] } }

/-- `streamingWriter.initialise`: emit the opening bracket and mark the
writer initialised. -/
def swInitialise (sw : StreamingWriter) : StreamingWriter :=
  { swEmit sw .openBracket with initialised := true }

/-- `streamingWriter.Write`: initialise on first use, otherwise emit a
separator; then marshal and emit the event.  A marshalling error is
returned after the separator has already been written, as in the source. -/
def swWrite (sw : StreamingWriter) (e : Event) : StreamingWriter × Option GoErr :=
  let sw1 := if !sw.initialised then swInitialise sw else swEmit sw .comma
  match marshalJsonEvent e with
  | .error err => (sw1, some err)
  | .ok msg => (swEmit sw1 (.eventMsg msg), none)

/-- `streamingWriter.Close`: return immediately when `finalised` is set;
otherwise initialise if needed, emit the closing bracket, and close the
underlying sink.  Note the source never assigns `finalised = true`. -/
def swClose (sw : StreamingWriter) : StreamingWriter :=
  if sw.finalised then sw
  else
    let sw1 := if !sw.initialised then swInitialise sw else sw
    let sw2 := swEmit sw1 .closeBracket
    { sw2 with sink := { sw2.sink with closeCount := sw2.sink.closeCount + 1 } }

/-! ## Stack-frame reference resolver -/

/-- The resolver's error kinds (spec §7). -/
inductive StackRefError where
  | unresolvedStackReference (id : String)
  | cyclicStackReference
deriving DecidableEq, Repr

/-- Modelled from the spec: the stack-frame reference resolver of §4.2 is
missing from the sources under `src/` — the decoder there discards the
`sf`/`esf` wire fields after unmarshalling them, and only the resolver's
inputs (`StackFrame.Parent`, the container's frame-id table, the `sf`
field of `jsonStackInfo`) are declared.  Following §4.2: start at the
referenced frame, prepend each visited frame to the accumulator (so the
first frame visited ends up leaf-last), stop at a frame whose `parent` is
empty; an id absent from the table is `UnresolvedStackReference`, and the
walk is bounded by table size + 1 steps, failing with
`CyclicStackReference` when the bound is exhausted. -/
def resolveStackRefGo (table : List (String × StackFrame)) :
    Nat → String → List StackFrame → Except StackRefError (List StackFrame)
  | 0, _, _ => .error .cyclicStackReference
  | fuel + 1, id, acc =>
    match alookup table id with
    | none => .error (.unresolvedStackReference id)
    | some f =>
        if f.parent = "" then .ok (f :: acc)
        else resolveStackRefGo table fuel f.parent (f :: acc)

/-- Modelled from the spec: resolve one pending frame-id reference against
the complete frame-id table (§4.2), with the chain-length bound
`table size + 1`. -/
def resolveStackRef (table : List (String × StackFrame)) (id : String) :
    Except StackRefError (List StackFrame) :=
  resolveStackRefGo table (table.length + 1) id []

/-- The root-first chain shape the spec requires of a resolved stack
trace: the referenced frame is last (leaf), each frame is preceded by the
frame its `parent` id resolves to, and the first frame (root) has an
empty `parent`. -/
inductive RootFirstChain (table : List (String × StackFrame)) :
    String → List StackFrame → Prop
  | root (id : String) (f : StackFrame) :
      alookup table id = some f → f.parent = "" → RootFirstChain table id [f]
  | step (id : String) (f : StackFrame) (l : List StackFrame) :
      alookup table id = some f → f.parent ≠ "" →
      RootFirstChain table f.parent l → RootFirstChain table id (l ++ [f])

/-! ## Helper lemmas -/

theorem exceptBind_ok {ε α β : Type} {x : Except ε α} {f : α → Except ε β} {b : β}
    (h : x >>= f = .ok b) : ∃ a, x = .ok a ∧ f a = .ok b := by
  cases x with
  | error e => exact absurd h (by simp [Bind.bind, Except.bind])
  | ok a => exact ⟨a, rfl, by simpa [Bind.bind, Except.bind] using h⟩

theorem alookup_append_of_none {α : Type} {l1 : List (String × α)} (l2 : List (String × α))
    {k : String} (h : alookup l1 k = none) : alookup (l1 ++ l2) k = alookup l2 k := by
  induction l1 with
  | nil => rfl
  | cons p rest ih =>
    simp only [alookup, List.cons_append] at h ⊢
    split at h
    · exact absurd h (by simp)
    · split
      · simp_all
      · exact ih h

theorem alookup_map {α β : Type} (f : α → β) (l : List (String × α)) (k : String) :
    alookup (l.map fun p => (p.1, f p.2)) k = (alookup l k).map f := by
  induction l with
  | nil => rfl
  | cons p rest ih =>
    simp only [alookup, List.map_cons]
    split <;> simp_all

theorem alookup_filter_eq_none {α : Type} {p : String × α → Bool}
    (l : List (String × α)) {k : String} (h : ∀ v, p (k, v) = false) :
    alookup (l.filter p) k = none := by
  induction l with
  | nil => rfl
  | cons q rest ih =>
    by_cases hq : p q = true
    · obtain ⟨k', v⟩ := q
      simp only [List.filter_cons, hq, if_true, alookup]
      split
      · next heq => subst heq; simp [h v] at hq
      · exact ih
    · simp only [List.filter_cons, hq, if_false, if_neg hq]
      exact ih

theorem decodeRawStackTrace_ne_empty (l : List String) :
    decodeRawStackTrace l ≠ some ⟨[]⟩ := by
  cases l <;> simp [decodeRawStackTrace]

/-- The optional stack traces carried by an event variant (the
`EventStackTrace` / `EventEndStackTrace` fields). -/
def stackTracesOf : Event → List (Option StackTrace)
  | .beginDuration _ _ st => [st]
  | .endDuration _ _ st => [st]
  | .complete _ _ st est _ _ => [st, est]
  | .instant _ _ st => [st]
  | _ => []

/-- No stack trace of the event is present but empty. -/
def noEmptyStackTrace (e : Event) : Prop :=
  ∀ st ∈ stackTracesOf e, st ≠ some ⟨[]⟩

/-- The event is not an `Instant` variant. -/
def notInstant (e : Event) : Prop :=
  ∀ c sc st, e ≠ Event.instant c sc st

theorem resolveStackRefGo_chain {table : List (String × StackFrame)} :
    ∀ (fuel : Nat) (id : String) (acc l : List StackFrame),
    resolveStackRefGo table fuel id acc = .ok l →
    ∃ l', RootFirstChain table id l' ∧ l = l' ++ acc := by
  intro fuel
  induction fuel with
  | zero => intro id acc l h; exact absurd h (by simp [resolveStackRefGo])
  | succ n ih =>
    intro id acc l h
    simp only [resolveStackRefGo] at h
    cases hf : alookup table id with
    | none => rw [hf] at h; exact absurd h (by simp)
    | some f =>
      simp only [hf] at h
      by_cases hp : f.parent = ""
      · rw [if_pos hp] at h
        refine ⟨[f], RootFirstChain.root id f hf hp, ?_⟩
        cases h
        rfl
      · rw [if_neg hp] at h
        obtain ⟨l', hc, he⟩ := ih f.parent (f :: acc) l h
        refine ⟨l' ++ [f], RootFirstChain.step id f l' hf hp hc, ?_⟩
        simp [he]

/-! ## The frame tables of the claims' concrete instances -/

/-- The frame keyed `"a"` in the table `{"a":{"parent":""}, "b":{"parent":"a"}}`. -/
def frameA : StackFrame := { category := "", name := "a", parent := "" }

/-- The frame keyed `"b"` in the table `{"a":{"parent":""}, "b":{"parent":"a"}}`. -/
def frameB : StackFrame := { category := "", name := "b", parent := "a" }

/-- The frame table `{"a":{"parent":""}, "b":{"parent":"a"}}`. -/
def framesAB : List (String × StackFrame) := [("a", frameA), ("b", frameB)]

/-- The cyclic frame table `{"x":{"parent":"y"}, "y":{"parent":"x"}}`. -/
def framesXY : List (String × StackFrame) :=
  [("x", { category := "", name := "x", parent := "y" }),
   ("y", { category := "", name := "y", parent := "x" })]

/-! ## Claims -/

/-- Claim C1: resolving a frame-id reference against a known frame table
produces a StackTrace ordered root (outermost) first, leaf last — every
successful resolution is a root-first parent chain ending at the
referenced frame; in particular, with the frame table
`{"a":{"parent":""}, "b":{"parent":"a"}}`, a reference to `"b"` resolves
to `[a, b]`. -/
theorem C1_stack_resolution_root_first :
    (∀ (table : List (String × StackFrame)) (id : String) (l : List StackFrame),
      resolveStackRef table id = .ok l → RootFirstChain table id l)
    ∧ resolveStackRef framesAB "b" = .ok [frameA, frameB] := by
  constructor
  · intro table id l h
    obtain ⟨l', hc, he⟩ := resolveStackRefGo_chain (table.length + 1) id [] l h
    rwa [he, List.append_nil]
  · rfl

/-- Witness for C1: the concrete resolution of `"b"` against
`{"a":{"parent":""}, "b":{"parent":"a"}}` is a root-first chain. -/
theorem C1_stack_resolution_root_first_witness :
    RootFirstChain framesAB "b" [frameA, frameB] :=
  C1_stack_resolution_root_first.1 framesAB "b" [frameA, frameB]
    C1_stack_resolution_root_first.2

/-- Claim C2: a frame-id reference absent from the table fails with
`UnresolvedStackReference`, and the cyclic table
`{"x":{"parent":"y"}, "y":{"parent":"x"}}` fails with
`CyclicStackReference` (the walk is bounded, so it terminates). -/
theorem C2_stack_resolution_errors :
    (∀ (table : List (String × StackFrame)) (id : String),
      alookup table id = none →
      resolveStackRef table id = .error (.unresolvedStackReference id))
    ∧ resolveStackRef framesXY "x" = .error .cyclicStackReference := by
  constructor
  · intro table id h
    simp [resolveStackRef, resolveStackRefGo, h]
  · rfl

/-- Witness for C2: an id missing from the empty table is reported as
unresolved. -/
theorem C2_stack_resolution_errors_witness :
    resolveStackRef [] "z" = .error (.unresolvedStackReference "z") :=
  C2_stack_resolution_errors.1 [] "z" rfl

/-- Claim C3 (code bug): `streamingWriter.Close` is intended to be
idempotent — it tests `finalised` on entry — but the source never sets
`finalised`, so closing a fresh writer twice emits `[`, `]`, `]` (two
closing brackets) and closes the underlying sink twice, instead of the
claimed no-op second close. -/
theorem C3_close_not_idempotent :
    (swClose NewStreamingWriter).sink = ⟨[.openBracket, .closeBracket], 1⟩
    ∧ (swClose (swClose NewStreamingWriter)).sink =
        ⟨[.openBracket, .closeBracket, .closeBracket], 2⟩
    ∧ (swClose (swClose NewStreamingWriter)).finalised = false := by
  exact ⟨rfl, rfl, rfl⟩

/-- Claim C5 (code bug): the flow phases are declared members of the
`events.Phase` enumeration (`PhaseFlowStart = "s"`), yet `parseJsonEvent`
has no case for them and fails with the unknown-phase error on
`{"name":"x","ph":"s","ts":0}`. -/
theorem C5_flow_phase_unknown :
    PhaseFlowStart = "s"
    ∧ parseJsonEvent (.obj [("name", .str "x"), ("ph", .str "s"), ("ts", .num 0)])
        = .error (.unknownPhase "s") := by
  exact ⟨rfl, rfl⟩

theorem goJoinComma_eq_empty {l : List String} (h : goJoinComma l = "") :
    l = [] ∨ l = [""] := by
  match l with
  | [] => exact .inl rfl
  | [s] =>
    right
    have hd : (goJoinComma [s]).data = s.data := by
      simp [goJoinComma, List.intercalate]
    rw [h] at hd
    cases s with
    | mk data =>
      have hdata : data = [] := by simpa using hd.symm
      subst hdata
      rfl
  | s1 :: s2 :: rest =>
    exfalso
    have hd : (goJoinComma (s1 :: s2 :: rest)).data
        = s1.data ++ [','] ++ List.intercalate [','] ((s2 :: rest).map String.data) := by
      simp [goJoinComma, List.intercalate, List.intersperse]
    rw [h] at hd
    have : (("" : String).data).length
        = (s1.data ++ [','] ++ List.intercalate [','] ((s2 :: rest).map String.data)).length := by
      rw [hd]
    simp at this
    omega

/-- Claim C6 (counterexample): the list `[""]` contains no comma, yet its
comma-joined wire form is the empty string, which decodes to the empty
list — the round trip loses the singleton empty category. -/
theorem C6_roundtrip_counterexample :
    goJoinComma [""] = ""
    ∧ decodeCategories (goJoinComma [""]) = []
    ∧ ([] : List String) ≠ [""] := by
  exact ⟨rfl, rfl, by decide⟩

/-- Claim C6 (amended): the empty wire string decodes to the empty
sequence, and for every category list whose elements contain no comma —
except the singleton list `[""]`, whose encoding collapses to the empty
wire string — decoding the comma-joined encoding returns exactly the
original list. -/
theorem C6_categories_roundtrip :
    decodeCategories "" = []
    ∧ ∀ l : List String, (∀ s ∈ l, ',' ∉ s.data) → l ≠ [""] →
        decodeCategories (goJoinComma l) = l := by
  refine ⟨rfl, ?_⟩
  intro l h hne
  by_cases h0 : l = []
  · subst h0; rfl
  · have hj : goJoinComma l ≠ "" := fun he => ((goJoinComma_eq_empty he).elim h0 hne)
    have hx : ∀ cs ∈ l.map String.data, ',' ∉ cs := by
      intro cs hcs
      obtain ⟨s, hs, rfl⟩ := List.mem_map.1 hcs
      exact h s hs
    have hne' : l.map String.data ≠ [] := by
      simpa using h0
    calc decodeCategories (goJoinComma l)
        = goSplitComma (goJoinComma l) := by rw [decodeCategories, if_neg hj]
      _ = ((List.intercalate [','] (l.map String.data)).splitOn ',').map String.mk := rfl
      _ = (l.map String.data).map String.mk := by
            rw [List.splitOn_intercalate (l.map String.data) ',' hx hne']
      _ = l := by
            rw [List.map_map]
            exact List.map_id l

/-- Witness for C6: the two-element category list `["one","two"]`
round-trips through the comma-joined wire form. -/
theorem C6_categories_roundtrip_witness :
    decodeCategories (goJoinComma ["one", "two"]) = ["one", "two"] :=
  C6_categories_roundtrip.2 ["one", "two"] (by decide) (by decide)

/-! ### Shape of the events produced by each decode branch -/

theorem parseBeginDurationEvent_sound {o : List (String × Json)} {e : Event}
    (h : parseBeginDurationEvent o = .ok e) : noEmptyStackTrace e ∧ notInstant e := by
  unfold parseBeginDurationEvent at h
  obtain ⟨jc, h1, h⟩ := exceptBind_ok h
  obtain ⟨args, h2, h⟩ := exceptBind_ok h
  obtain ⟨⟨stack, sf⟩, h3, h⟩ := exceptBind_ok h
  cases h
  refine ⟨?_, fun c sc st hEq => Event.noConfusion hEq⟩
  intro st hst
  simp only [stackTracesOf, List.mem_singleton] at hst
  subst hst
  exact decodeRawStackTrace_ne_empty stack

theorem parseEndDurationEvent_sound {o : List (String × Json)} {e : Event}
    (h : parseEndDurationEvent o = .ok e) : noEmptyStackTrace e ∧ notInstant e := by
  unfold parseEndDurationEvent at h
  obtain ⟨jc, h1, h⟩ := exceptBind_ok h
  obtain ⟨args, h2, h⟩ := exceptBind_ok h
  obtain ⟨⟨stack, sf⟩, h3, h⟩ := exceptBind_ok h
  cases h
  refine ⟨?_, fun c sc st hEq => Event.noConfusion hEq⟩
  intro st hst
  simp only [stackTracesOf, List.mem_singleton] at hst
  subst hst
  exact decodeRawStackTrace_ne_empty stack

theorem parseCompleteEvent_sound {o : List (String × Json)} {e : Event}
    (h : parseCompleteEvent o = .ok e) : noEmptyStackTrace e ∧ notInstant e := by
  unfold parseCompleteEvent at h
  obtain ⟨jc, h1, h⟩ := exceptBind_ok h
  obtain ⟨args, h2, h⟩ := exceptBind_ok h
  obtain ⟨⟨stack, sf⟩, h3, h⟩ := exceptBind_ok h
  obtain ⟨dur, h4, h⟩ := exceptBind_ok h
  obtain ⟨estack, h5, h⟩ := exceptBind_ok h
  obtain ⟨esf, h6, h⟩ := exceptBind_ok h
  cases h
  refine ⟨?_, fun c sc st hEq => Event.noConfusion hEq⟩
  intro st hst
  simp only [stackTracesOf, List.mem_cons, List.mem_singleton] at hst
  rcases hst with hst | hst | hst
  · subst hst; exact decodeRawStackTrace_ne_empty stack
  · subst hst; exact decodeRawStackTrace_ne_empty estack
  · cases hst

theorem parseInstantEvent_ok {o : List (String × Json)} {e : Event}
    (h : parseInstantEvent o = .ok e) :
    ∃ jc stack s, fieldStr o "s" = .ok s
      ∧ e = .instant (decodeEventCore jc) (if s = "" then InstantScopeGlobal else s)
          (decodeRawStackTrace stack) := by
  unfold parseInstantEvent at h
  obtain ⟨jc, h1, h⟩ := exceptBind_ok h
  obtain ⟨⟨stack, sf⟩, h2, h⟩ := exceptBind_ok h
  obtain ⟨s, h3, h⟩ := exceptBind_ok h
  cases h
  exact ⟨jc, stack, s, h3, rfl⟩

theorem parseInstantEvent_sound {o : List (String × Json)} {e : Event}
    (h : parseInstantEvent o = .ok e) : noEmptyStackTrace e := by
  obtain ⟨jc, stack, s, _, rfl⟩ := parseInstantEvent_ok h
  intro st hst
  simp only [stackTracesOf, List.mem_singleton] at hst
  subst hst
  exact decodeRawStackTrace_ne_empty stack

theorem parseCounterEvent_sound {o : List (String × Json)} {e : Event}
    (h : parseCounterEvent o = .ok e) : noEmptyStackTrace e ∧ notInstant e := by
  unfold parseCounterEvent at h
  obtain ⟨jc, h1, h⟩ := exceptBind_ok h
  obtain ⟨values, h2, h⟩ := exceptBind_ok h
  cases h
  exact ⟨fun st hst => by simp [stackTracesOf] at hst,
    fun c sc st hEq => Event.noConfusion hEq⟩

theorem parseAsyncBeginEvent_sound {o : List (String × Json)} {e : Event}
    (h : parseAsyncBeginEvent o = .ok e) : noEmptyStackTrace e ∧ notInstant e := by
  unfold parseAsyncBeginEvent at h
  obtain ⟨⟨core, args⟩, h1, h⟩ := exceptBind_ok h
  cases h
  exact ⟨fun st hst => by simp [stackTracesOf] at hst,
    fun c sc st hEq => Event.noConfusion hEq⟩

theorem parseAsyncInstantEvent_sound {o : List (String × Json)} {e : Event}
    (h : parseAsyncInstantEvent o = .ok e) : noEmptyStackTrace e ∧ notInstant e := by
  unfold parseAsyncInstantEvent at h
  obtain ⟨⟨core, args⟩, h1, h⟩ := exceptBind_ok h
  cases h
  exact ⟨fun st hst => by simp [stackTracesOf] at hst,
    fun c sc st hEq => Event.noConfusion hEq⟩

theorem parseAsyncEndEvent_sound {o : List (String × Json)} {e : Event}
    (h : parseAsyncEndEvent o = .ok e) : noEmptyStackTrace e ∧ notInstant e := by
  unfold parseAsyncEndEvent at h
  obtain ⟨⟨core, args⟩, h1, h⟩ := exceptBind_ok h
  cases h
  exact ⟨fun st hst => by simp [stackTracesOf] at hst,
    fun c sc st hEq => Event.noConfusion hEq⟩

theorem parseObjectCreatedEvent_sound {o : List (String × Json)} {e : Event}
    (h : parseObjectCreatedEvent o = .ok e) : noEmptyStackTrace e ∧ notInstant e := by
  unfold parseObjectCreatedEvent at h
  obtain ⟨⟨core, args⟩, h1, h⟩ := exceptBind_ok h
  cases h
  exact ⟨fun st hst => by simp [stackTracesOf] at hst,
    fun c sc st hEq => Event.noConfusion hEq⟩

theorem parseObjectSnapshotEvent_sound {o : List (String × Json)} {e : Event}
    (h : parseObjectSnapshotEvent o = .ok e) : noEmptyStackTrace e ∧ notInstant e := by
  unfold parseObjectSnapshotEvent at h
  obtain ⟨⟨core, args⟩, h1, h⟩ := exceptBind_ok h
  cases h
  exact ⟨fun st hst => by simp [stackTracesOf] at hst,
    fun c sc st hEq => Event.noConfusion hEq⟩

theorem parseObjectDeletedEvent_sound {o : List (String × Json)} {e : Event}
    (h : parseObjectDeletedEvent o = .ok e) : noEmptyStackTrace e ∧ notInstant e := by
  unfold parseObjectDeletedEvent at h
  obtain ⟨⟨core, args⟩, h1, h⟩ := exceptBind_ok h
  cases h
  exact ⟨fun st hst => by simp [stackTracesOf] at hst,
    fun c sc st hEq => Event.noConfusion hEq⟩

theorem parseMetadataEvent_sound {o : List (String × Json)} {e : Event}
    (h : parseMetadataEvent o = .ok e) : noEmptyStackTrace e ∧ notInstant e := by
  unfold parseMetadataEvent at h
  obtain ⟨jc, h1, h⟩ := exceptBind_ok h
  obtain ⟨args, h2, h⟩ := exceptBind_ok h
  split at h
  case _ =>
    obtain ⟨name, h3, h⟩ := exceptBind_ok h
    cases h
    exact ⟨fun st hst => by simp [stackTracesOf] at hst,
      fun c sc st hEq => Event.noConfusion hEq⟩
  case _ =>
    obtain ⟨labels, h3, h⟩ := exceptBind_ok h
    cases h
    exact ⟨fun st hst => by simp [stackTracesOf] at hst,
      fun c sc st hEq => Event.noConfusion hEq⟩
  case _ =>
    obtain ⟨si, h3, h⟩ := exceptBind_ok h
    cases h
    exact ⟨fun st hst => by simp [stackTracesOf] at hst,
      fun c sc st hEq => Event.noConfusion hEq⟩
  case _ =>
    obtain ⟨name, h3, h⟩ := exceptBind_ok h
    cases h
    exact ⟨fun st hst => by simp [stackTracesOf] at hst,
      fun c sc st hEq => Event.noConfusion hEq⟩
  case _ =>
    obtain ⟨si, h3, h⟩ := exceptBind_ok h
    cases h
    exact ⟨fun st hst => by simp [stackTracesOf] at hst,
      fun c sc st hEq => Event.noConfusion hEq⟩
  case _ =>
    cases h
    exact ⟨fun st hst => by simp [stackTracesOf] at hst,
      fun c sc st hEq => Event.noConfusion hEq⟩

theorem parseGlobalMemoryDumpEvent_sound {o : List (String × Json)} {e : Event}
    (h : parseGlobalMemoryDumpEvent o = .ok e) : noEmptyStackTrace e ∧ notInstant e := by
  unfold parseGlobalMemoryDumpEvent at h
  obtain ⟨⟨core, args⟩, h1, h⟩ := exceptBind_ok h
  cases h
  exact ⟨fun st hst => by simp [stackTracesOf] at hst,
    fun c sc st hEq => Event.noConfusion hEq⟩

theorem parseProcessMemoryDumpEvent_sound {o : List (String × Json)} {e : Event}
    (h : parseProcessMemoryDumpEvent o = .ok e) : noEmptyStackTrace e ∧ notInstant e := by
  unfold parseProcessMemoryDumpEvent at h
  obtain ⟨⟨core, args⟩, h1, h⟩ := exceptBind_ok h
  cases h
  exact ⟨fun st hst => by simp [stackTracesOf] at hst,
    fun c sc st hEq => Event.noConfusion hEq⟩

theorem parseMarkEvent_sound {o : List (String × Json)} {e : Event}
    (h : parseMarkEvent o = .ok e) : noEmptyStackTrace e ∧ notInstant e := by
  unfold parseMarkEvent at h
  obtain ⟨⟨core, args⟩, h1, h⟩ := exceptBind_ok h
  cases h
  exact ⟨fun st hst => by simp [stackTracesOf] at hst,
    fun c sc st hEq => Event.noConfusion hEq⟩

theorem parseClockSyncEvent_sound {o : List (String × Json)} {e : Event}
    (h : parseClockSyncEvent o = .ok e) : noEmptyStackTrace e ∧ notInstant e := by
  unfold parseClockSyncEvent at h
  obtain ⟨⟨core, args⟩, h1, h⟩ := exceptBind_ok h
  obtain ⟨issueTs, h2, h⟩ := exceptBind_ok h
  obtain ⟨syncId, h3, h⟩ := exceptBind_ok h
  cases h
  exact ⟨fun st hst => by simp [stackTracesOf] at hst,
    fun c sc st hEq => Event.noConfusion hEq⟩

theorem parseContextEnterEvent_sound {o : List (String × Json)} {e : Event}
    (h : parseContextEnterEvent o = .ok e) : noEmptyStackTrace e ∧ notInstant e := by
  unfold parseContextEnterEvent at h
  obtain ⟨⟨core, args⟩, h1, h⟩ := exceptBind_ok h
  cases h
  exact ⟨fun st hst => by simp [stackTracesOf] at hst,
    fun c sc st hEq => Event.noConfusion hEq⟩

theorem parseContextExitEvent_sound {o : List (String × Json)} {e : Event}
    (h : parseContextExitEvent o = .ok e) : noEmptyStackTrace e ∧ notInstant e := by
  unfold parseContextExitEvent at h
  obtain ⟨⟨core, args⟩, h1, h⟩ := exceptBind_ok h
  cases h
  exact ⟨fun st hst => by simp [stackTracesOf] at hst,
    fun c sc st hEq => Event.noConfusion hEq⟩

theorem parseLinkIdsEvent_sound {o : List (String × Json)} {e : Event}
    (h : parseLinkIdsEvent o = .ok e) : noEmptyStackTrace e ∧ notInstant e := by
  unfold parseLinkIdsEvent at h
  obtain ⟨⟨core, args⟩, h1, h⟩ := exceptBind_ok h
  obtain ⟨linkedId, h2, h⟩ := exceptBind_ok h
  cases h
  exact ⟨fun st hst => by simp [stackTracesOf] at hst,
    fun c sc st hEq => Event.noConfusion hEq⟩

theorem parseJsonEvent_sound {j : Json} {e : Event}
    (h : parseJsonEvent j = .ok e) :
    noEmptyStackTrace e
    ∧ (∀ o c sc st, asObj j = .ok o → e = .instant c sc st →
        ∃ jc stack s, fieldStr o "s" = .ok s
          ∧ Event.instant c sc st
            = .instant (decodeEventCore jc) (if s = "" then InstantScopeGlobal else s)
              (decodeRawStackTrace stack)) := by
  unfold parseJsonEvent at h
  obtain ⟨ph, h1, h⟩ := exceptBind_ok h
  obtain ⟨o', h2, h⟩ := exceptBind_ok h
  split at h
  · exact ⟨(parseBeginDurationEvent_sound h).1, fun o c sc st ho hEq =>
      absurd hEq ((parseBeginDurationEvent_sound h).2 c sc st)⟩
  · exact ⟨(parseEndDurationEvent_sound h).1, fun o c sc st ho hEq =>
      absurd hEq ((parseEndDurationEvent_sound h).2 c sc st)⟩
  · exact ⟨(parseCompleteEvent_sound h).1, fun o c sc st ho hEq =>
      absurd hEq ((parseCompleteEvent_sound h).2 c sc st)⟩
  · refine ⟨parseInstantEvent_sound h, fun o c sc st ho hEq => ?_⟩
    rw [ho] at h2
    cases h2
    rw [hEq] at h
    exact parseInstantEvent_ok h
  · exact ⟨(parseCounterEvent_sound h).1, fun o c sc st ho hEq =>
      absurd hEq ((parseCounterEvent_sound h).2 c sc st)⟩
  · exact ⟨(parseAsyncBeginEvent_sound h).1, fun o c sc st ho hEq =>
      absurd hEq ((parseAsyncBeginEvent_sound h).2 c sc st)⟩
  · exact ⟨(parseAsyncInstantEvent_sound h).1, fun o c sc st ho hEq =>
      absurd hEq ((parseAsyncInstantEvent_sound h).2 c sc st)⟩
  · exact ⟨(parseAsyncInstantEvent_sound h).1, fun o c sc st ho hEq =>
      absurd hEq ((parseAsyncInstantEvent_sound h).2 c sc st)⟩
  · exact ⟨(parseAsyncEndEvent_sound h).1, fun o c sc st ho hEq =>
      absurd hEq ((parseAsyncEndEvent_sound h).2 c sc st)⟩
  · exact ⟨(parseAsyncBeginEvent_sound h).1, fun o c sc st ho hEq =>
      absurd hEq ((parseAsyncBeginEvent_sound h).2 c sc st)⟩
  · exact ⟨(parseAsyncInstantEvent_sound h).1, fun o c sc st ho hEq =>
      absurd hEq ((parseAsyncInstantEvent_sound h).2 c sc st)⟩
  · exact ⟨(parseAsyncEndEvent_sound h).1, fun o c sc st ho hEq =>
      absurd hEq ((parseAsyncEndEvent_sound h).2 c sc st)⟩
  · exact ⟨(parseObjectCreatedEvent_sound h).1, fun o c sc st ho hEq =>
      absurd hEq ((parseObjectCreatedEvent_sound h).2 c sc st)⟩
  · exact ⟨(parseObjectSnapshotEvent_sound h).1, fun o c sc st ho hEq =>
      absurd hEq ((parseObjectSnapshotEvent_sound h).2 c sc st)⟩
  · exact ⟨(parseObjectDeletedEvent_sound h).1, fun o c sc st ho hEq =>
      absurd hEq ((parseObjectDeletedEvent_sound h).2 c sc st)⟩
  · exact ⟨(parseMetadataEvent_sound h).1, fun o c sc st ho hEq =>
      absurd hEq ((parseMetadataEvent_sound h).2 c sc st)⟩
  · exact ⟨(parseGlobalMemoryDumpEvent_sound h).1, fun o c sc st ho hEq =>
      absurd hEq ((parseGlobalMemoryDumpEvent_sound h).2 c sc st)⟩
  · exact ⟨(parseProcessMemoryDumpEvent_sound h).1, fun o c sc st ho hEq =>
      absurd hEq ((parseProcessMemoryDumpEvent_sound h).2 c sc st)⟩
  · exact ⟨(parseMarkEvent_sound h).1, fun o c sc st ho hEq =>
      absurd hEq ((parseMarkEvent_sound h).2 c sc st)⟩
  · exact ⟨(parseClockSyncEvent_sound h).1, fun o c sc st ho hEq =>
      absurd hEq ((parseClockSyncEvent_sound h).2 c sc st)⟩
  · exact ⟨(parseContextEnterEvent_sound h).1, fun o c sc st ho hEq =>
      absurd hEq ((parseContextEnterEvent_sound h).2 c sc st)⟩
  · exact ⟨(parseContextExitEvent_sound h).1, fun o c sc st ho hEq =>
      absurd hEq ((parseContextExitEvent_sound h).2 c sc st)⟩
  · exact ⟨(parseLinkIdsEvent_sound h).1, fun o c sc st ho hEq =>
      absurd hEq ((parseLinkIdsEvent_sound h).2 c sc st)⟩
  · exact absurd h (by simp)

/-- Claim C4 (counterexample): decoding an Instant wire object with no `s`
field yields scope `"g"` (`events.InstantScopeGlobal`), not the claimed
thread scope `"t"`. -/
theorem C4_default_scope_counterexample :
    parseJsonEvent (.obj [("name", .str "x"), ("ph", .str "I"), ("ts", .num 0)])
      = .ok (.instant ⟨"x", [], 0, none, none, none⟩ InstantScopeGlobal none)
    ∧ InstantScopeGlobal ≠ InstantScopeThread := by
  exact ⟨rfl, by decide⟩

/-- Claim C4 (amended): for every Instant event wire object whose scope
field `s` is absent or the empty string, decoding yields an Instant event
whose scope is the global scope (`"g"`) — the decoder's default instant
scope is `global`, not `thread`. -/
theorem C4_default_scope_global :
    ∀ (o : List (String × Json)) (c : EventCore) (sc : String) (st : Option StackTrace),
    (alookup o "s" = none ∨ alookup o "s" = some (.str "")) →
    parseJsonEvent (.obj o) = .ok (.instant c sc st) →
    sc = InstantScopeGlobal := by
  intro o c sc st hs h
  obtain ⟨jc, stack, s, hfs, hEq⟩ :=
    (parseJsonEvent_sound h).2 o c sc st rfl rfl
  have hs0 : fieldStr o "s" = .ok "" := by
    rcases hs with hs | hs <;> simp [fieldStr, hs]
  rw [hs0] at hfs
  cases hfs
  rw [if_pos rfl] at hEq
  exact (Event.instant.injEq _ _ _ _ _ _).mp hEq |>.2.1

/-- Witness for C4: a concrete Instant wire object with `s` absent decodes
to the global scope. -/
theorem C4_default_scope_global_witness :
    InstantScopeGlobal = InstantScopeGlobal :=
  C4_default_scope_global [("name", .str "x"), ("ph", .str "I"), ("ts", .num 0)]
    ⟨"x", [], 0, none, none, none⟩ InstantScopeGlobal none (.inl rfl) rfl

/-- Claim C10: an absent or empty inline `stack`/`estack` array decodes to
an absent (`nil`) stack trace, and no decoded event ever carries a present
stack trace with zero frames. -/
theorem C10_no_empty_stack_traces :
    decodeRawStackTrace [] = none
    ∧ ∀ (j : Json) (e : Event), parseJsonEvent j = .ok e → noEmptyStackTrace e := by
  exact ⟨rfl, fun j e h => (parseJsonEvent_sound h).1⟩

/-- Witness for C10: a concrete decode whose `stack` array is present and
non-empty produces a non-empty stack trace; the claim's property holds of
it. -/
theorem C10_no_empty_stack_traces_witness :
    noEmptyStackTrace (.beginDuration ⟨"x", [], 0, none, none, none⟩ []
      (some ⟨[{ category := "", name := "one", parent := "" }]⟩)) :=
  C10_no_empty_stack_traces.2
    (.obj [("name", .str "x"), ("ph", .str "B"), ("ts", .num 0),
           ("stack", .arr [.str "one"])])
    (.beginDuration ⟨"x", [], 0, none, none, none⟩ []
      (some ⟨[{ category := "", name := "one", parent := "" }]⟩))
    rfl

theorem parseArrayEvents_forall2 {elems : List Json} {es : List Event}
    (h : List.Forall₂ (fun j e => parseJsonEvent j = .ok e) elems es) :
    parseArrayEvents elems = .ok es := by
  induction h with
  | nil => rfl
  | cons hpe _ ih =>
    simp only [parseArrayEvents, hpe, ih]
    rfl

/-- The raw event `{"name":"A","ph":"B","ts":0}`. -/
def rawEventA : Json := .obj [("name", .str "A"), ("ph", .str "B"), ("ts", .num 0)]

/-- The raw event `{"name":"B","ph":"B","ts":10}`. -/
def rawEventB : Json := .obj [("name", .str "B"), ("ph", .str "B"), ("ts", .num 10)]

/-- Claim C7: an array-form input that begins with `[` and is truncated
mid-array — with or without a dangling trailing comma — after `n`
complete event objects that each decode successfully yields exactly those
`n` events in input order; in particular
`[{"name":"A","ph":"B","ts":0},{"name":"B","ph":"B","ts":10}` (missing
closing bracket) decodes exactly its two events. -/
theorem C7_truncated_array_decodes :
    (∀ (elems : List Json) (es : List Event) (term : ArrayTermination),
      term ≠ .closed →
      List.Forall₂ (fun j e => parseJsonEvent j = .ok e) elems es →
      ParseJsonArray ⟨true, elems, term⟩
        = .ok ⟨es, DisplayTimeMs, "", "", [], "traceEvents", []⟩)
    ∧ ParseJsonArray ⟨true, [rawEventA, rawEventB], .truncatedAfterValue⟩
        = .ok ⟨[.beginDuration ⟨"A", [], 0, none, none, none⟩ [] none,
                .beginDuration ⟨"B", [], 10, none, none, none⟩ [] none],
               DisplayTimeMs, "", "", [], "traceEvents", []⟩ := by
  constructor
  · intro elems es term _hterm hf
    simp only [ParseJsonArray, parseArrayEvents_forall2 hf]
    rfl
  · rfl

/-- Witness for C7: the single-event stream truncated after a dangling
comma decodes to exactly that event. -/
theorem C7_truncated_array_decodes_witness :
    ParseJsonArray ⟨true, [rawEventA], .truncatedAfterComma⟩
      = .ok ⟨[.beginDuration ⟨"A", [], 0, none, none, none⟩ [] none],
             DisplayTimeMs, "", "", [], "traceEvents", []⟩ :=
  C7_truncated_array_decodes.1 [rawEventA]
    [.beginDuration ⟨"A", [], 0, none, none, none⟩ [] none]
    .truncatedAfterComma (by decide) (.cons rfl .nil)

/-- Claim C9: whenever `ParseJsonArray` succeeds, the returned container
carries the envelope defaults — display time unit `ms`, controller trace
data key `"traceEvents"`, an empty frame table, empty metadata, and empty
system/power trace strings — regardless of the input. -/
theorem C9_array_decode_envelope_defaults :
    ∀ (s : ArrayStream) (d : TefData), ParseJsonArray s = .ok d →
    d.displayTimeUnit = DisplayTimeMs
    ∧ d.controllerTraceDataKey = "traceEvents"
    ∧ d.stackFrames = []
    ∧ d.metadata = []
    ∧ d.systemTraceEvents = ""
    ∧ d.powerTraceAsString = "" := by
  intro s d h
  unfold ParseJsonArray at h
  split at h
  · exact absurd h (by simp)
  · obtain ⟨es, h1, h⟩ := exceptBind_ok h
    cases h
    exact ⟨rfl, rfl, rfl, rfl, rfl, rfl⟩

/-- Witness for C9: the empty well-formed array stream produces the
default envelope. -/
theorem C9_array_decode_envelope_defaults_witness :
    (⟨[], DisplayTimeMs, "", "", [], "traceEvents", []⟩ : TefData).displayTimeUnit
        = DisplayTimeMs
    ∧ (⟨[], DisplayTimeMs, "", "", [], "traceEvents", []⟩ : TefData).controllerTraceDataKey
        = "traceEvents"
    ∧ (⟨[], DisplayTimeMs, "", "", [], "traceEvents", []⟩ : TefData).stackFrames = []
    ∧ (⟨[], DisplayTimeMs, "", "", [], "traceEvents", []⟩ : TefData).metadata = []
    ∧ (⟨[], DisplayTimeMs, "", "", [], "traceEvents", []⟩ : TefData).systemTraceEvents = ""
    ∧ (⟨[], DisplayTimeMs, "", "", [], "traceEvents", []⟩ : TefData).powerTraceAsString = "" :=
  C9_array_decode_envelope_defaults ⟨true, [], .closed⟩ _ rfl

theorem alookup_append {α : Type} (l1 l2 : List (String × α)) (k : String) :
    alookup (l1 ++ l2) k = (alookup l1 k).or (alookup l2 k) := by
  induction l1 with
  | nil => simp [alookup]
  | cons p rest ih =>
    simp only [List.cons_append, alookup]
    split <;> simp [ih]

theorem unmarshalEventCore_write (ph : String) (core : EventCore)
    (extra : List (String × Json))
    (hcat : alookup extra "cat" = none)
    (htts : alookup extra "tts" = none)
    (hpid : alookup extra "pid" = none)
    (htid : alookup extra "tid" = none) :
    unmarshalEventCore (writeJsonEventCoreJson ph core ++ extra)
      = .ok ⟨ph, core.name, goJoinComma core.categories, core.timestamp,
             core.threadTimestamp, core.processID, core.threadID⟩ := by
  obtain ⟨name, cats, ts, tts, pid, tid⟩ := core
  by_cases hc : goJoinComma cats = "" <;>
    cases tts <;> cases pid <;> cases tid <;>
      simp [writeJsonEventCoreJson, omitemptyStr, omitemptyOptInt, unmarshalEventCore,
        fieldStr, fieldInt, fieldOptInt, alookup_append, alookup, hc, hcat, htts, hpid, htid,
        Bind.bind, Except.bind]

theorem alookup_writeCore_args (ph : String) (core : EventCore) :
    alookup (writeJsonEventCoreJson ph core) "args" = none := by
  obtain ⟨name, cats, ts, tts, pid, tid⟩ := core
  by_cases hc : goJoinComma cats = "" <;>
    cases tts <;> cases pid <;> cases tid <;>
      simp [writeJsonEventCoreJson, omitemptyStr, omitemptyOptInt, alookup_append, alookup, hc]

theorem alookup_writeCore_ph (ph : String) (core : EventCore)
    (extra : List (String × Json)) :
    alookup (writeJsonEventCoreJson ph core ++ extra) "ph" = some (.str ph) := by
  simp [writeJsonEventCoreJson, alookup]

/-- Claim C8: encoding a ClockSync event whose `IssueTs` pointer is nil
emits an `args` entry `"issue_ts"` whose JSON value is `null` — the
typed-nil pointer survives `mergeDicts`'s nil filter as a non-nil
interface — and decoding the encoded event then fails with the data-type
error (`getIntEntry` sees a non-number), so such events do not
round-trip. -/
theorem C8_clocksync_nil_issue_ts :
    ∀ (core : EventCore) (args : Args) (syncId : String) (j : Json),
    marshalJsonEvent (.clockSync core args syncId none) = .ok j →
    ∃ fields margs,
      j = .obj fields
      ∧ alookup fields "args" = some (.obj margs)
      ∧ alookup margs "issue_ts" = some .null
      ∧ parseJsonEvent j = .error .invalidDataType := by
  intro core args syncId j h
  set aLift : List (String × GoVal) := args.map fun p => (p.1, jsonToGoVal p.2) with haLift
  set b : List (String × GoVal) :=
    [("sync_id", .vjson (.str syncId)), ("issue_ts", .vIntPtr none)] with hb
  set merged : List (String × GoVal) := mergeDicts aLift b with hmerged
  set margs : List (String × Json) := merged.map fun p => (p.1, goValToJson p.2) with hmargs
  have hbf : b.filter (fun q => !isNilVal q.2) = b := by rw [hb]; rfl
  have hmergedEq : merged =
      (aLift.filter fun p => !isNilVal p.2 && (alookup b p.1).isNone) ++ b := by
    rw [hmerged]
    unfold mergeDicts
    rw [hbf]
  have hmergedNe : merged.isEmpty = false := by
    rw [hmergedEq]
    simp [hb]
  have hfields : writeJsonEvent (Event.clockSync core args syncId none)
      = .ok (writeJsonEventCoreJson PhaseClockSync core ++ [("args", .obj margs)]) := by
    simp only [writeJsonEvent, omitemptyGoArgs, hmergedNe]
    rfl
  have hj : j = .obj (writeJsonEventCoreJson PhaseClockSync core ++ [("args", .obj margs)]) := by
    unfold marshalJsonEvent at h
    rw [hfields] at h
    cases h
    rfl
  refine ⟨_, margs, hj, ?_, ?_, ?_⟩
  · rw [alookup_append, alookup_writeCore_args]
    rfl
  · have haF : alookup (aLift.filter fun p => !isNilVal p.2 && (alookup b p.1).isNone)
        "issue_ts" = none := by
      apply alookup_filter_eq_none
      intro v
      have : (alookup b "issue_ts").isNone = false := by rw [hb]; rfl
      simp [this]
    rw [hmargs, alookup_map, hmergedEq, alookup_append, haF]
    rfl
  · have haF : alookup (aLift.filter fun p => !isNilVal p.2 && (alookup b p.1).isNone)
        "issue_ts" = none := by
      apply alookup_filter_eq_none
      intro v
      have : (alookup b "issue_ts").isNone = false := by rw [hb]; rfl
      simp [this]
    have hlook : alookup margs "issue_ts" = some .null := by
      rw [hmargs, alookup_map, hmergedEq, alookup_append, haF]
      rfl
    subst hj
    have hph : decodeEventPhase (.obj (writeJsonEventCoreJson PhaseClockSync core
        ++ [("args", .obj margs)])) = .ok "c" := by
      simp [decodeEventPhase, asObj, Bind.bind, Except.bind, fieldStr,
        alookup_writeCore_ph, PhaseClockSync]
    have hcore := unmarshalEventCore_write PhaseClockSync core [("args", .obj margs)]
      rfl rfl rfl rfl
    have hargs : fieldArgs (writeJsonEventCoreJson PhaseClockSync core
        ++ [("args", .obj margs)]) "args" = .ok margs := by
      unfold fieldArgs
      rw [alookup_append, alookup_writeCore_args]
      rfl
    have hget : getIntEntry margs "issue_ts" = .error .invalidDataType := by
      unfold getIntEntry
      rw [hlook]
    have hpa : parseArgsFields (writeJsonEventCoreJson PhaseClockSync core
        ++ [("args", .obj margs)])
        = .ok (decodeEventCore ⟨PhaseClockSync, core.name, goJoinComma core.categories,
            core.timestamp, core.threadTimestamp, core.processID, core.threadID⟩, margs) := by
      unfold parseArgsFields
      rw [hcore]
      simp [Bind.bind, Except.bind, hargs]
    have hcs : parseClockSyncEvent (writeJsonEventCoreJson PhaseClockSync core
        ++ [("args", .obj margs)]) = .error .invalidDataType := by
      unfold parseClockSyncEvent
      rw [hpa]
      simp [Bind.bind, Except.bind, hget]
    unfold parseJsonEvent
    rw [hph]
    simp only [Bind.bind, Except.bind, asObj]
    exact hcs

/-- Witness for C8: a concrete nil-`IssueTs` ClockSync event encodes with
`"issue_ts": null` in its arguments and its encoding fails to decode. -/
theorem C8_clocksync_nil_issue_ts_witness :
    marshalJsonEvent (.clockSync ⟨"n", [], 0, none, none, none⟩ [] "sid" none)
      = .ok (.obj [("ph", .str "c"), ("name", .str "n"), ("ts", .num 0),
          ("args", .obj [("sync_id", .str "sid"), ("issue_ts", .null)])])
    ∧ ∃ fields margs,
        (Json.obj [("ph", .str "c"), ("name", .str "n"), ("ts", .num 0),
          ("args", .obj [("sync_id", .str "sid"), ("issue_ts", .null)])]) = .obj fields
        ∧ alookup fields "args" = some (.obj margs)
        ∧ alookup margs "issue_ts" = some .null
        ∧ parseJsonEvent (.obj [("ph", .str "c"), ("name", .str "n"), ("ts", .num 0),
            ("args", .obj [("sync_id", .str "sid"), ("issue_ts", .null)])])
          = .error .invalidDataType :=
  ⟨rfl, C8_clocksync_nil_issue_ts ⟨"n", [], 0, none, none, none⟩ [] "sid" _ rfl⟩

end Teffy





